import Mathlib

/-!
# Verification of the PDF Q&A assistant core

Shallow embedding of the retrieval-augmented QA pipeline:
`PDFProcessor` (chunking, document store) and `QAEngine`
(embedding index, retrieval, answer synthesis), together with the
corpus-mutation paths of the HTTP layer (`upload`, `delete_document`,
`clear_all`).

Python strings are modelled through their character lists (`List Char`);
the external capabilities (embedding model, extractive-QA pipeline) are
opaque parameters, fallible ones returning `Except`.
-/

/-! ## Python string primitives -/

/-- One step of Python `str.split()`: accumulate non-whitespace runs,
dropping whitespace; `acc` holds the (reversed) current word. -/
def wordsAux : List Char → List Char → List (List Char)
  | [], acc => if acc = [] then [] else [acc.reverse]
  | c :: rest, acc =>
    if c.isWhitespace then
      if acc = [] then wordsAux rest [] else acc.reverse :: wordsAux rest []
    else
      wordsAux rest (c :: acc)

/-- Python `text.split()`: whitespace-delimited words, no empties. -/
def pyWordsL (l : List Char) : List (List Char) :=
  wordsAux l []

/-- Python `" ".join(words)` at character-list level. -/
def joinWordsL : List (List Char) → List Char
  | [] => []
  | [w] => w
  | w :: ws => w ++ ' ' :: joinWordsL ws

/-- Python `str.strip()`: remove leading and trailing whitespace. -/
def stripL (l : List Char) : List Char :=
  ((l.dropWhile Char.isWhitespace).reverse.dropWhile Char.isWhitespace).reverse

/-- Python `str.strip()` on strings. -/
def pyStrip (s : String) : String :=
  ⟨stripL s.toList⟩

/-- Number of whitespace-delimited words of a string (`len(s.split())`). -/
def pyWordCount (s : String) : Nat :=
  (pyWordsL s.toList).length

/-- Python list slice `lst[-k:]`: for `k = 0` this is `lst[0:]`, i.e. the
whole list; otherwise the last `k` elements (all of them when `k ≥ len`). -/
def pySliceLast {α : Type} (l : List α) (k : Nat) : List α :=
  if k = 0 then l else l.drop (l.length - k)

/-- Python `dict[k] = v` on an insertion-ordered association list:
replace in place if the key exists, else append. -/
def dictInsert {α : Type} (k : String) (v : α) : List (String × α) → List (String × α)
  | [] => [(k, v)]
  | (k', v') :: rest =>
    if k' = k then (k, v) :: rest else (k', v') :: dictInsert k v rest

/-- Python `del dict[k]` (first occurrence; keys are unique). -/
def dictRemove {α : Type} (k : String) : List (String × α) → List (String × α)
  | [] => []
  | (k', v') :: rest =>
    if k' = k then rest else (k', v') :: dictRemove k rest

/-- Python `k in dict` as lookup. -/
def dictLookup {α : Type} (k : String) : List (String × α) → Option α
  | [] => none
  | (k', v') :: rest => if k' = k then some v' else dictLookup k rest

/-! ## Chunker (`PDFProcessor.chunk_text`) -/

/-- The word-accumulation loop of `chunk_text`: for each word, append it to
`current_chunk`; once `current_chunk` reaches `chunk_size` words, emit it
and keep only its last `overlap` words (`current_chunk[-overlap:]`); any
remaining partial window is emitted at the end. -/
def chunkAux {α : Type} (cs ov : Nat) : List α → List (List α) → List α → List (List α)
  | [], chunks, cur => if cur.isEmpty then chunks else chunks ++ [cur]
  | w :: ws, chunks, cur =>
    let cur' := cur ++ [w]
    if cs ≤ cur'.length then
      chunkAux cs ov ws (chunks ++ [cur']) (pySliceLast cur' ov)
    else
      chunkAux cs ov ws chunks cur'

/-- `chunk_text`'s core on a word sequence. -/
def chunkWordsCore {α : Type} (cs ov : Nat) (ws : List α) : List (List α) :=
  chunkAux cs ov ws [] []

/-- Python `x or default` on the optional chunk-size arguments:
`None` and `0` are falsy and fall back to the instance default. -/
def pyOrNat (a : Option Nat) (d : Nat) : Nat :=
  match a with
  | none => d
  | some n => if n = 0 then d else n

/-- `PDFProcessor` state: stored documents (name-keyed, insertion-ordered),
the flat corpus of chunk texts, and the chunking configuration. -/
structure PDFProcessor where
  documents : List (String × (List String × String))
  text_chunks : List String
  chunk_size : Nat
  overlap : Nat
  deriving DecidableEq, Repr

/-- `PDFProcessor.__init__(chunk_size, overlap)`. -/
def pdfProcessorInit (cs ov : Nat) : PDFProcessor :=
  { documents := [], text_chunks := [], chunk_size := cs, overlap := ov }

/-- `PDFProcessor.chunk_text(text, chunk_size, overlap)`: split the text
into whitespace-delimited words and run the overlapping-window loop,
joining each emitted window with single spaces. -/
def PDFProcessor.chunk_text (p : PDFProcessor) (text : String)
    (csArg ovArg : Option Nat) : List String :=
  let cs := pyOrNat csArg p.chunk_size
  let ov := pyOrNat ovArg p.overlap
  (chunkWordsCore cs ov (pyWordsL text.toList)).map (fun c => (⟨joinWordsL c⟩ : String))

/-- `PDFProcessor._clean_text`: collapse all whitespace runs to single
spaces (`" ".join(text.split())`), then strip null bytes. -/
def PDFProcessor.clean_text (text : String) : String :=
  ⟨(joinWordsL (pyWordsL text.toList)).filter (fun c => c ≠ '\x00')⟩

/-- `PDFProcessor.process_pdf`, with the PyPDF2 text-extraction capability
already applied: clean the extracted text, chunk it, store the document
under `doc_name` (Python dict assignment: overwrites a prior document of
the same name), and extend the flat corpus with the new chunks. -/
def PDFProcessor.process_pdf (p : PDFProcessor) (doc_name text : String) :
    PDFProcessor × List String :=
  let cleaned := PDFProcessor.clean_text text
  let chunks := p.chunk_text cleaned none none
  ({ p with
      documents := dictInsert doc_name (chunks, cleaned) p.documents,
      text_chunks := p.text_chunks ++ chunks },
   chunks)

example : pyWordsL "a b".toList = [['a'], ['b']] := by decide

example : chunkWordsCore 2 1 [1, 2, 3] = [[1, 2], [2, 3], [3]] := by decide

example :
    (pdfProcessorInit 5 2).chunk_text "a b c d e f" none none
      = ["a b c d e", "d e f"] := by decide

/-! ## QA engine state and embedding index (`QAEngine`) -/

/-- `QAEngine` mutable state: the flat list of chunk texts and the optional
embedding index (`None` until first computed / after clearing).  Embedding
vectors are opaque; we represent them by an abstract `Int` code produced by
the injected embedding capability. -/
structure QAEngine where
  text_chunks : List String
  embeddings : Option (List Int)
  deriving DecidableEq, Repr

/-- `QAEngine.__init__`: empty corpus, no index. -/
def qaEngineInit : QAEngine :=
  { text_chunks := [], embeddings := none }

/-- `QAEngine.add_documents` with a fallible embedding capability
(`encodeE` models `SentenceTransformer.encode`, which may raise).  The code
first extends `text_chunks` in place and only then recomputes the index, so
on failure the extended corpus is kept while `embeddings` retains its stale
previous value; the second component reports the raised error. -/
def QAEngine.add_documents_exc (encodeE : List String → Except String (List Int))
    (e : QAEngine) (chunks : List String) : QAEngine × Option String :=
  let tc := e.text_chunks ++ chunks
  match encodeE tc with
  | .ok es => ({ text_chunks := tc, embeddings := some es }, none)
  | .error msg => ({ text_chunks := tc, embeddings := e.embeddings }, some msg)

/-- `QAEngine.add_documents` when the embedding capability succeeds,
embedding each chunk with `embedOne` (`_compute_embeddings` maps the
encoder over the whole corpus). -/
def QAEngine.add_documents (embedOne : String → Int) (e : QAEngine)
    (chunks : List String) : QAEngine :=
  (QAEngine.add_documents_exc (fun l => .ok (l.map embedOne)) e chunks).1

/-- `QAEngine.clear_documents`. -/
def QAEngine.clear_documents (_e : QAEngine) : QAEngine :=
  { text_chunks := [], embeddings := none }

/-! ## Retrieval (`QAEngine.search_similar_chunks`) -/

/-- Insert an (index, score) pair into a descending-by-score list, after any
earlier pair with an equal or higher score (stable). -/
def insertDesc (x : Nat × ℚ) : List (Nat × ℚ) → List (Nat × ℚ)
  | [] => [x]
  | y :: ys => if x.2 ≤ y.2 then y :: insertDesc x ys else x :: y :: ys

/-- Sort (index, score) pairs by non-increasing score; models the ordering
guarantee of `torch.topk` (values returned sorted descending). -/
def sortDesc : List (Nat × ℚ) → List (Nat × ℚ)
  | [] => []
  | x :: xs => insertDesc x (sortDesc xs)

/-- `torch.topk(scores, k)`: the `k` largest scores with their indices, in
non-increasing score order. -/
def topkPairs (scores : List ℚ) (k : Nat) : List (Nat × ℚ) :=
  (sortDesc scores.enum).take k

/-- `QAEngine.search_similar_chunks(query, top_k)`: empty corpus returns
`[]`; otherwise embed the query (`embedOne`), score every stored embedding
vector by cosine similarity (`cosSim`), take the top `min(top_k, corpus
size)` and return the corresponding `(chunk text, score)` pairs. -/
def QAEngine.search_similar_chunks (embedOne : String → Int) (cosSim : Int → Int → ℚ)
    (e : QAEngine) (query : String) (top_k : Nat) : List (String × ℚ) :=
  if e.text_chunks.length = 0 then []
  else
    let qv := embedOne query
    let scores := (e.embeddings.getD []).map (cosSim qv)
    let top := topkPairs scores (min top_k e.text_chunks.length)
    top.map (fun p => (e.text_chunks.getD p.1 "", p.2))

/-! ## Answer synthesis (`QAEngine.answer_question` and helpers) -/

/-- Result of one extractive-QA pipeline call: answer span, confidence
score, and character offsets (the pipeline's `start`/`end` keys; `end` is a
Lean keyword, rendered `stop`). -/
structure QARes where
  answer : String
  score : ℚ
  start : Nat
  stop : Nat
  deriving DecidableEq, Repr

/-- The record `answer_question` returns (`answer`/`score`/`start`/`end`
keys of the Python dict). -/
structure AnswerRec where
  answer : String
  score : ℚ
  start : Nat
  stop : Nat
  deriving DecidableEq, Repr

/-- Python `needle in haystack` / `haystack.find(needle)` on character
lists: index of the first occurrence, if any. -/
def findSub (pat : List Char) : List Char → Option Nat
  | [] => if pat.isEmpty then some 0 else none
  | c :: rest =>
    if pat.isPrefixOf (c :: rest) then some 0
    else (findSub pat rest).map (· + 1)

/-- Python slice `s[a:b]` by character index. -/
def pySlice (s : String) (a b : Nat) : String :=
  ⟨(s.toList.drop a).take (b - a)⟩

/-- Python `s.split('. ')` (keeps empty segments, like `str.split(sep)`). -/
def splitSentences (s : String) : List String :=
  s.splitOn ". "

/-- Python `'. '.join(l)`. -/
def joinSentences (l : List String) : String :=
  String.intercalate ". " l

/-- `QAEngine._enhance_answer(answer, context, question)`: if the answer is
under 100 words, expand it from the context around the first occurrence of
the answer (300 chars before, 500 after, then first 5 sentences), falling
back to the context's leading sentences; finally, if still under 50 words,
prepend the context's first 3 sentences. -/
def QAEngine.enhance_answer (answer context _question : String) : String :=
  let answer :=
    if pyWordCount answer < 100 then
      match findSub answer.toList context.toList with
      | some idx =>
        let start := idx - 300
        let stop := min context.toList.length (idx + answer.toList.length + 500)
        let expanded := pyStrip (pySlice context start stop)
        let sentences := splitSentences expanded
        if 2 < sentences.length then joinSentences (sentences.take 5) ++ "."
        else if 1 < sentences.length then joinSentences sentences ++ "."
        else answer
      | none =>
        let sentences := splitSentences context
        if 3 < sentences.length then joinSentences (sentences.take 4) ++ "."
        else context
    else answer
  if pyWordCount answer < 50 then
    let sentences := splitSentences context
    joinSentences (sentences.take 3) ++ ". " ++ answer
  else answer

/-- `QAEngine._generate_fallback_answer(context, question)`: first four
sentences of the context (fewer when the context has fewer). -/
def QAEngine.generate_fallback_answer (context _question : String) : String :=
  let sentences := splitSentences context
  if 4 ≤ sentences.length then joinSentences (sentences.take 4) ++ "."
  else if 2 ≤ sentences.length then joinSentences sentences ++ "."
  else context

/-- The guarded region of `answer_question`'s inner `try`: the primary
`qa_pipeline` call, then the low-confidence/short-answer retry with the
alternate parameterization.  The extractive-QA capability `qaF` (the
`Bool` flag is the retry parameterization `top_k=1`; the fixed
`max_answer_len=500` bound is folded into the opaque capability) may fail
on either call. -/
def QAEngine.qa_attempt (qaF : Bool → String → String → Except String QARes)
    (question ctx : String) : Except String (String × ℚ × Nat × Nat) := do
  let r1 ← qaF false question ctx
  let a1 := pyStrip r1.answer
  let s1 := r1.score
  if pyWordCount a1 < 20 ∨ s1 < 3 / 10 then
    let r2 ← qaF true question ctx
    pure (pyStrip r2.answer, r2.score, r2.start, r2.stop)
  else
    pure (a1, s1, r1.start, r1.stop)

/-- Resume `answer_question` after the inner `try`: on extraction success,
enhance the stripped answer; on extraction failure (the inner `except`),
synthesize the sentence fallback with score 0.5 and result offsets
`{'start': 0, 'end': len(answer)}` (pre-enhancement length), then enhance
it too. -/
def QAEngine.finish_answer (ctx question : String) :
    Except String (String × ℚ × Nat × Nat) → Except String AnswerRec
  | .ok (a, s, st, en) =>
    pure { answer := QAEngine.enhance_answer a ctx question,
           score := s, start := st, stop := en }
  | .error _ =>
    let a := QAEngine.generate_fallback_answer ctx question
    pure { answer := QAEngine.enhance_answer a ctx question,
           score := 1 / 2, start := 0, stop := a.toList.length }

/-- Body of `answer_question`'s outer `try` block: the short-context
guard, the 2048-word context truncation, then the inner `try`
(`qa_attempt`) resumed by `finish_answer`. -/
def QAEngine.answer_question_body (qaF : Bool → String → String → Except String QARes)
    (question context : String) : Except String AnswerRec :=
  if context = "" ∨ (pyStrip context).length < 50 then
    pure { answer := "Insufficient context to answer the question.",
           score := 0, start := 0, stop := 0 }
  else
    let ctx :=
      if 2048 < (pyWordsL context.toList).length then
        (⟨joinWordsL ((pyWordsL context.toList).take 2048)⟩ : String)
      else context
    QAEngine.finish_answer ctx question (QAEngine.qa_attempt qaF question ctx)

/-- The outer `except Exception` handler of `answer_question`: any error
escaping the body becomes the fixed unable-to-answer record. -/
def handleAnswerError : Except String AnswerRec → AnswerRec
  | .ok r => r
  | .error _ =>
    { answer := "Unable to generate answer from the provided context.",
      score := 0, start := 0, stop := 0 }

/-- `QAEngine.answer_question(question, context)`. -/
def QAEngine.answer_question (qaF : Bool → String → String → Except String QARes)
    (question context : String) : AnswerRec :=
  handleAnswerError (QAEngine.answer_question_body qaF question context)

/-! ## Query validation and `process_query` -/

/-- `QAEngine._is_valid_question`: non-empty, at least 3 characters after
stripping, at least 50% alphabetic characters, and at least one alphabetic
run (`re.findall('[a-zA-Z]+', q)` non-empty). -/
def QAEngine.is_valid_question (question : String) : Bool :=
  if question = "" ∨ (stripL question.toList).length < 3 then false
  else
    let alpha_count := (question.toList.filter Char.isAlpha).length
    let total_chars := (stripL question.toList).length
    if 0 < total_chars ∧ alpha_count * 2 < total_chars then false
    else if (question.toList.filter Char.isAlpha).length = 0 then false
    else true

/-- The record `process_query` returns: question, answer text, the
`(chunk text, similarity)` list, and the confidence score. -/
structure QueryResult where
  question : String
  answer : String
  relevant_chunks : List (String × ℚ)
  confidence : ℚ
  deriving DecidableEq, Repr

/-- `QAEngine.process_query(question, top_k)`: validate, guard on an empty
corpus, clamp `top_k` to 3, retrieve, concatenate the retrieved chunks as
context, and synthesize the answer. -/
def QAEngine.process_query (embedOne : String → Int) (cosSim : Int → Int → ℚ)
    (qaF : Bool → String → String → Except String QARes)
    (e : QAEngine) (question : String) (top_k : Nat) : QueryResult :=
  if ¬ QAEngine.is_valid_question question then
    { question := question,
      answer := "Please ask a meaningful question with actual words (not just symbols).",
      relevant_chunks := [], confidence := 0 }
  else if e.text_chunks.length = 0 then
    { question := question,
      answer := "No documents have been uploaded yet.",
      relevant_chunks := [], confidence := 0 }
  else
    let k := min 3 top_k
    let relevant := e.search_similar_chunks embedOne cosSim question k
    if relevant.isEmpty then
      { question := question,
        answer := "No relevant information found in the documents.",
        relevant_chunks := [], confidence := 0 }
    else
      let context := (⟨joinWordsL (relevant.map (fun p => p.1.toList))⟩ : String)
      let ar := QAEngine.answer_question qaF question context
      { question := question, answer := ar.answer,
        relevant_chunks := relevant, confidence := ar.score }

/-! ## System-level corpus mutations (`main.py` routes) -/

/-- Combined service state: the `PDFProcessor` and `QAEngine` singletons of
`main.py`. -/
structure SystemState where
  proc : PDFProcessor
  qa : QAEngine
  deriving DecidableEq, Repr

/-- Startup state: `PDFProcessor()` (defaults 500/50) and `QAEngine()`. -/
def initSystem : SystemState :=
  { proc := pdfProcessorInit 500 50, qa := qaEngineInit }

/-- One corpus-mutating request: `POST /upload` (with the extracted text),
`DELETE /documents/{name}`, or `DELETE /clear`. -/
inductive CorpusOp where
  | ingest (name text : String)
  | remove (name : String)
  | clear
  deriving DecidableEq, Repr

/-- Apply one corpus mutation, with a (successful) embedding capability
`embedOne`.
* `ingest`: `process_pdf` then `qa_engine.add_documents(chunks)`.
* `remove`: 404 (state unchanged) when the name is unknown; otherwise
  delete the document, rebuild `qa_engine.text_chunks` from the remaining
  documents' chunks, and recompute the index when non-empty, else set it
  to `None` (the processor's own `text_chunks` is not touched by this
  route).
* `clear`: reset both components. -/
def applyOp (embedOne : String → Int) (s : SystemState) : CorpusOp → SystemState
  | .ingest name text =>
    let (p', chunks) := s.proc.process_pdf name text
    { proc := p', qa := s.qa.add_documents embedOne chunks }
  | .remove name =>
    match dictLookup name s.proc.documents with
    | none => s
    | some _ =>
      let docs' := dictRemove name s.proc.documents
      let all_chunks := (docs'.map (fun kv => kv.2.1)).flatten
      { proc := { s.proc with documents := docs' },
        qa := { text_chunks := all_chunks,
                embeddings :=
                  if all_chunks.isEmpty then none
                  else some (all_chunks.map embedOne) } }
  | .clear =>
    { proc := { s.proc with documents := [], text_chunks := [] },
      qa := s.qa.clear_documents }

/-- Run a sequence of corpus mutations from a state. -/
def runOps (embedOne : String → Int) (s : SystemState) (ops : List CorpusOp) : SystemState :=
  ops.foldl (applyOp embedOne) s

/-- The corpus/index alignment property of claim C1: the index stores the
embedding of every corpus chunk in order (hence one vector per chunk), or
is absent with an empty corpus. -/
def indexAligned (embedOne : String → Int) (e : QAEngine) : Prop :=
  e.embeddings = some (e.text_chunks.map embedOne) ∨
    (e.embeddings = none ∧ e.text_chunks = [])

/-- Total chunk count of the stored documents (`sum of all Documents'
chunk counts`). -/
def docChunkSum (p : PDFProcessor) : Nat :=
  (p.documents.map (fun kv => kv.2.1.length)).sum

/-! ## C1: corpus/index alignment invariant -/

lemma applyOp_indexAligned (embedOne : String → Int) (s : SystemState) (op : CorpusOp)
    (h : indexAligned embedOne s.qa) : indexAligned embedOne (applyOp embedOne s op).qa := by
  cases op with
  | ingest name text =>
    left
    simp [applyOp, QAEngine.add_documents, QAEngine.add_documents_exc]
  | remove name =>
    cases hl : dictLookup name s.proc.documents with
    | none => simpa [applyOp, hl] using h
    | some d =>
      by_cases he :
          ((dictRemove name s.proc.documents).map (fun kv => kv.2.1)).flatten.isEmpty
      · right
        simp [applyOp, hl, he, List.isEmpty_iff.mp he]
      · left
        simp [applyOp, hl, he]
  | clear =>
    right
    simp [applyOp, QAEngine.clear_documents]

lemma runOps_indexAligned (embedOne : String → Int) (s : SystemState) (ops : List CorpusOp)
    (h : indexAligned embedOne s.qa) : indexAligned embedOne (runOps embedOne s ops).qa := by
  induction ops generalizing s with
  | nil => exact h
  | cons op ops ih =>
    exact ih _ (applyOp_indexAligned embedOne s op h)

/-- C1: after every sequence of ingest, remove, and clear operations run
from the startup state, the embedding index holds exactly one vector per
corpus chunk, in corpus order (so its length equals `len(text_chunks)`),
or the index is absent and the corpus is empty. -/
theorem c1_index_corpus_alignment (embedOne : String → Int) (ops : List CorpusOp) :
    (∃ es, (runOps embedOne initSystem ops).qa.embeddings = some es ∧
        es = (runOps embedOne initSystem ops).qa.text_chunks.map embedOne ∧
        es.length = (runOps embedOne initSystem ops).qa.text_chunks.length) ∨
      ((runOps embedOne initSystem ops).qa.embeddings = none ∧
        (runOps embedOne initSystem ops).qa.text_chunks = []) := by
  have h := runOps_indexAligned embedOne initSystem ops (by right; simp [initSystem, qaEngineInit])
  cases h with
  | inl h => exact Or.inl ⟨_, h, rfl, by simp⟩
  | inr h => exact Or.inr h

/-! ## C2: corpus length vs. stored document chunk counts -/

lemma dictLookup_eq_none_iff {α : Type} (k : String) (l : List (String × α)) :
    dictLookup k l = none ↔ k ∉ l.map Prod.fst := by
  induction l with
  | nil => simp [dictLookup]
  | cons kv rest ih =>
    by_cases hk : kv.1 = k
    · simp [dictLookup, hk]
    · simpa [dictLookup, hk, Ne.symm hk] using ih

lemma dictInsert_of_notMem {α : Type} (k : String) (v : α) (l : List (String × α))
    (h : k ∉ l.map Prod.fst) : dictInsert k v l = l ++ [(k, v)] := by
  induction l with
  | nil => simp [dictInsert]
  | cons kv rest ih =>
    simp only [List.map_cons, List.mem_cons] at h
    push_neg at h
    simp [dictInsert, Ne.symm h.1, ih h.2]

/-- C2 fails on overwrite: uploading the same document name twice leaves the
old chunks in the flat corpus while the stored document is replaced, so
`len(text_chunks) = 2` while the documents' chunk counts sum to `1`. -/
theorem c2_counterexample :
    (runOps (fun _ => 0) initSystem
        [CorpusOp.ingest "a" "x y", CorpusOp.ingest "a" "x y"]).proc.text_chunks.length = 2 ∧
      docChunkSum (runOps (fun _ => 0) initSystem
        [CorpusOp.ingest "a" "x y", CorpusOp.ingest "a" "x y"]).proc = 1 := by
  decide

lemma runIngests_corpusSum (embedOne : String → Int) (ds : List (String × String)) :
    ∀ s : SystemState, s.proc.text_chunks.length = docChunkSum s.proc →
      (∀ d ∈ ds, d.1 ∉ s.proc.documents.map Prod.fst) →
      (ds.map Prod.fst).Nodup →
      (runOps embedOne s (ds.map fun d => CorpusOp.ingest d.1 d.2)).proc.text_chunks.length
        = docChunkSum (runOps embedOne s (ds.map fun d => CorpusOp.ingest d.1 d.2)).proc := by
  induction ds with
  | nil => intro s h _ _; exact h
  | cons d ds ih =>
    intro s h hfresh hnodup
    simp only [List.map_cons, List.nodup_cons, List.mem_map] at hnodup
    have hd : d.1 ∉ s.proc.documents.map Prod.fst := hfresh d (List.mem_cons_self d ds)
    have hins :
        dictInsert d.1 ((s.proc.chunk_text (PDFProcessor.clean_text d.2) none none),
            PDFProcessor.clean_text d.2) s.proc.documents
          = s.proc.documents ++
            [(d.1, ((s.proc.chunk_text (PDFProcessor.clean_text d.2) none none),
              PDFProcessor.clean_text d.2))] :=
      dictInsert_of_notMem _ _ _ hd
    simp only [runOps, List.map_cons, List.foldl_cons]
    apply ih
    · simp [applyOp, PDFProcessor.process_pdf, hins, docChunkSum, h]
    · intro d' hd'
      simp only [applyOp, PDFProcessor.process_pdf, hins, List.map_append, List.map_cons,
        List.mem_append, List.mem_cons]
      rintro (hc | hc)
      · exact hfresh d' (List.mem_cons_of_mem d hd') hc
      · rcases hc with hc | hc
        · exact hnodup.1 ⟨d', hd', hc⟩
        · simp at hc
    · exact hnodup.2

/-- C2 amended: for every sequence of ingests whose document names are
pairwise distinct (no overwrite), the flat corpus length equals the sum of
the stored documents' chunk counts.  The overwrite case of the original
claim fails (see the counterexample): `process_pdf` replaces the stored
document but appends the new chunks to `text_chunks` without removing the
replaced document's chunks. -/
theorem c2_corpus_equals_doc_sum (embedOne : String → Int)
    (ds : List (String × String)) (h : (ds.map Prod.fst).Nodup) :
    (runOps embedOne initSystem (ds.map fun d => CorpusOp.ingest d.1 d.2)).proc.text_chunks.length
      = docChunkSum
          (runOps embedOne initSystem (ds.map fun d => CorpusOp.ingest d.1 d.2)).proc := by
  apply runIngests_corpusSum embedOne ds initSystem
  · simp [initSystem, pdfProcessorInit, docChunkSum]
  · intro d _
    simp [initSystem, pdfProcessorInit]
  · exact h

/-- Witness for C2's amended theorem at a concrete two-document ingest. -/
theorem c2_corpus_equals_doc_sum_witness :
    (([("a", "x"), ("b", "y z")].map Prod.fst).Nodup) ∧
      (runOps (fun _ => 0) initSystem
          ([("a", "x"), ("b", "y z")].map fun d => CorpusOp.ingest d.1 d.2)).proc.text_chunks.length
        = docChunkSum
            (runOps (fun _ => 0) initSystem
              ([("a", "x"), ("b", "y z")].map fun d => CorpusOp.ingest d.1 d.2)).proc :=
  ⟨by decide, c2_corpus_equals_doc_sum (fun _ => 0) [("a", "x"), ("b", "y z")] (by decide)⟩

/-! ## C3: failed index rebuild leaves a partially applied mutation -/

/-- C3 failing input: from the consistent state `text_chunks = ["a"]`,
`embeddings = [7]`, calling `add_documents(["b"])` while the embedding
capability raises leaves `text_chunks = ["a", "b"]` (the mutation was
partially applied) with the stale one-vector index — the previous
consistent pair is not left intact, contradicting the spec's error-handling
design. -/
theorem c3_partial_mutation_on_embed_failure :
    QAEngine.add_documents_exc (fun _ => Except.error "embedding capability unavailable")
        { text_chunks := ["a"], embeddings := some [7] } ["b"]
      = ({ text_chunks := ["a", "b"], embeddings := some [7] },
          some "embedding capability unavailable") ∧
      ({ text_chunks := ["a", "b"], embeddings := some [7] } : QAEngine)
        ≠ { text_chunks := ["a"], embeddings := some [7] } := by
  exact ⟨rfl, by decide⟩

/-! ## C4: retrieval result count and ordering -/

/-- Non-increasing score order on (index, score) pairs. -/
def scoreGe (a b : Nat × ℚ) : Prop := b.2 ≤ a.2

lemma mem_insertDesc (x a : Nat × ℚ) (l : List (Nat × ℚ)) :
    a ∈ insertDesc x l ↔ a = x ∨ a ∈ l := by
  induction l with
  | nil => simp [insertDesc]
  | cons y ys ih =>
    by_cases hx : x.2 ≤ y.2
    · simp only [insertDesc, if_pos hx, List.mem_cons, ih]
      tauto
    · simp only [insertDesc, if_neg hx, List.mem_cons]

lemma length_insertDesc (x : Nat × ℚ) (l : List (Nat × ℚ)) :
    (insertDesc x l).length = l.length + 1 := by
  induction l with
  | nil => rfl
  | cons y ys ih =>
    by_cases hx : x.2 ≤ y.2
    · simp [insertDesc, if_pos hx, ih]
    · simp [insertDesc, if_neg hx]

lemma length_sortDesc (l : List (Nat × ℚ)) : (sortDesc l).length = l.length := by
  induction l with
  | nil => rfl
  | cons x xs ih => simp [sortDesc, length_insertDesc, ih]

lemma sorted_insertDesc (x : Nat × ℚ) (l : List (Nat × ℚ))
    (h : l.Pairwise scoreGe) : (insertDesc x l).Pairwise scoreGe := by
  induction l with
  | nil => simp [insertDesc, List.pairwise_singleton]
  | cons y ys ih =>
    rcases List.pairwise_cons.mp h with ⟨hy, hys⟩
    by_cases hx : x.2 ≤ y.2
    · rw [insertDesc, if_pos hx]
      refine List.pairwise_cons.mpr ⟨?_, ih hys⟩
      intro a ha
      rcases (mem_insertDesc x a ys).mp ha with ha | ha
      · subst ha; exact hx
      · exact hy a ha
    · rw [insertDesc, if_neg hx]
      refine List.pairwise_cons.mpr ⟨?_, h⟩
      intro a ha
      rcases List.mem_cons.mp ha with ha | ha
      · subst ha; exact le_of_not_le hx
      · exact le_trans (hy a ha) (le_of_not_le hx)

lemma sorted_sortDesc (l : List (Nat × ℚ)) : (sortDesc l).Pairwise scoreGe := by
  induction l with
  | nil => simp [sortDesc]
  | cons x xs ih => exact sorted_insertDesc x (sortDesc xs) ih

lemma sorted_topkPairs (scores : List ℚ) (k : Nat) :
    (topkPairs scores k).Pairwise scoreGe :=
  List.Pairwise.sublist (List.take_sublist k _) (sorted_sortDesc scores.enum)

lemma length_topkPairs_le (scores : List ℚ) (k : Nat) :
    (topkPairs scores k).length ≤ k := by
  simp [topkPairs]

/-- C4: `search_similar_chunks` returns `[]` on an empty corpus; otherwise
it returns at most `min(k, corpus size)` `(chunk, score)` pairs whose
scores are in non-increasing order. -/
theorem c4_search_bounds (embedOne : String → Int) (cosSim : Int → Int → ℚ)
    (e : QAEngine) (query : String) (k : Nat) :
    (e.text_chunks = [] → e.search_similar_chunks embedOne cosSim query k = []) ∧
      (e.search_similar_chunks embedOne cosSim query k).length
        ≤ min k e.text_chunks.length ∧
      List.Sorted (fun a b : ℚ => b ≤ a)
        ((e.search_similar_chunks embedOne cosSim query k).map Prod.snd) := by
  by_cases he : e.text_chunks.length = 0
  · refine ⟨fun _ => by simp [QAEngine.search_similar_chunks, he], ?_, ?_⟩
    · simp [QAEngine.search_similar_chunks, he]
    · simp [QAEngine.search_similar_chunks, he, List.Sorted]
  · refine ⟨fun h => absurd (by simp [h]) he, ?_, ?_⟩
    · calc (e.search_similar_chunks embedOne cosSim query k).length
          = (topkPairs ((e.embeddings.getD []).map (cosSim (embedOne query)))
              (min k e.text_chunks.length)).length := by
            simp [QAEngine.search_similar_chunks, he]
        _ ≤ min k e.text_chunks.length := length_topkPairs_le _ _
    · have hs := sorted_topkPairs ((e.embeddings.getD []).map (cosSim (embedOne query)))
        (min k e.text_chunks.length)
      have hmap :
          (e.search_similar_chunks embedOne cosSim query k).map Prod.snd
            = (topkPairs ((e.embeddings.getD []).map (cosSim (embedOne query)))
                (min k e.text_chunks.length)).map Prod.snd := by
        simp [QAEngine.search_similar_chunks, he]
      rw [List.Sorted, hmap]
      exact List.Pairwise.map Prod.snd (fun a b hab => hab) hs

/-- Witness for C4 at a concrete two-chunk corpus. -/
theorem c4_search_bounds_witness :
    ((({ text_chunks := ["a", "b"], embeddings := some [0, 0] } : QAEngine).text_chunks = [] →
        QAEngine.search_similar_chunks (fun _ => 0) (fun _ _ => 0)
          { text_chunks := ["a", "b"], embeddings := some [0, 0] } "q" 5 = []) ∧
      (QAEngine.search_similar_chunks (fun _ => 0) (fun _ _ => 0)
          { text_chunks := ["a", "b"], embeddings := some [0, 0] } "q" 5).length
        ≤ min 5 ({ text_chunks := ["a", "b"], embeddings := some [0, 0] } : QAEngine).text_chunks.length ∧
      List.Sorted (fun a b : ℚ => b ≤ a)
        ((QAEngine.search_similar_chunks (fun _ => 0) (fun _ _ => 0)
            { text_chunks := ["a", "b"], embeddings := some [0, 0] } "q" 5).map Prod.snd)) :=
  c4_search_bounds (fun _ => 0) (fun _ _ => 0)
    { text_chunks := ["a", "b"], embeddings := some [0, 0] } "q" 5

/-! ## C5 and C9: chunker output (non-)emptiness -/

lemma chunkAux_ne_nil {α : Type} (cs ov : Nat) :
    ∀ (ws : List α) (chunks : List (List α)) (cur : List α),
      chunks ≠ [] ∨ cur ≠ [] ∨ ws ≠ [] →
      chunkAux cs ov ws chunks cur ≠ [] := by
  intro ws
  induction ws with
  | nil =>
    intro chunks cur h
    simp only [chunkAux]
    by_cases hc : cur.isEmpty
    · rcases h with h | h | h
      · simpa [hc] using h
      · exact absurd (List.isEmpty_iff.mp hc) h
      · exact absurd rfl h
    · simp [hc]
  | cons w ws ih =>
    intro chunks cur h
    simp only [chunkAux]
    split
    · exact ih _ _ (Or.inl (by simp))
    · exact ih _ _ (Or.inr (Or.inl (by simp)))

lemma chunk_text_length_pos (p : PDFProcessor) (text : String)
    (h : pyWordsL text.toList ≠ []) :
    1 ≤ (p.chunk_text text none none).length := by
  have hne :
      chunkWordsCore (pyOrNat none p.chunk_size) (pyOrNat none p.overlap)
        (pyWordsL text.toList) ≠ [] :=
    chunkAux_ne_nil _ _ _ [] [] (Or.inr (Or.inr h))
  have : 0 < (chunkWordsCore (pyOrNat none p.chunk_size) (pyOrNat none p.overlap)
      (pyWordsL text.toList)).length := List.length_pos.mpr hne
  simpa [PDFProcessor.chunk_text] using this

/-- C5 fails as stated: the whitespace-only text `" "` is a non-empty
string, yet `chunk_text` (default configuration) returns zero chunks. -/
theorem c5_counterexample :
    (pdfProcessorInit 500 50).chunk_text " " none none = [] ∧ (" " : String) ≠ "" :=
  ⟨by decide, by decide⟩

/-- C5 amended: `chunk_text` returns at least one chunk when the text
splits into at least one whitespace-delimited word (i.e. contains a
non-whitespace character), and returns zero chunks when it splits into
none — in particular on the empty text. -/
theorem c5_chunk_count (p : PDFProcessor) (text : String) :
    (pyWordsL text.toList ≠ [] → 1 ≤ (p.chunk_text text none none).length) ∧
      (pyWordsL text.toList = [] → p.chunk_text text none none = []) := by
  constructor
  · exact chunk_text_length_pos p text
  · intro h
    have h' : pyWordsL text.data = [] := h
    simp [PDFProcessor.chunk_text, chunkWordsCore, h', chunkAux]

/-- Witness for C5's amended theorem on a concrete two-word text. -/
theorem c5_chunk_count_witness :
    pyWordsL "hello world".toList ≠ [] ∧
      1 ≤ ((pdfProcessorInit 500 50).chunk_text "hello world" none none).length :=
  ⟨by decide,
    (c5_chunk_count (pdfProcessorInit 500 50) "hello world").1 (by decide)⟩

/-- C9 fails as stated: `overlap (3) ≥ chunk_size (2)` is accepted, and
`chunk_text` produces (ever-growing, duplicated) chunks instead of
failing. -/
theorem c9_counterexample :
    (pdfProcessorInit 2 3).chunk_text "a b c" none none = ["a b", "a b c", "a b c"] ∧
      (pdfProcessorInit 2 3).chunk_text "a b c" none none ≠ [] :=
  ⟨by decide, by decide⟩

/-- C9 amended: a configuration with `overlap ≥ chunk_size` is not
rejected — the constructor stores the parameters unchanged, and
`chunk_text` still returns at least one chunk for any text with at least
one word. -/
theorem c9_degenerate_config_accepted (cs ov : Nat) (text : String)
    (_hdeg : cs ≤ ov) (hw : pyWordsL text.toList ≠ []) :
    (pdfProcessorInit cs ov).chunk_size = cs ∧ (pdfProcessorInit cs ov).overlap = ov ∧
      1 ≤ ((pdfProcessorInit cs ov).chunk_text text none none).length :=
  ⟨rfl, rfl, chunk_text_length_pos (pdfProcessorInit cs ov) text hw⟩

/-- Witness for C9's amended theorem at `chunk_size = 2`, `overlap = 3`. -/
theorem c9_degenerate_config_accepted_witness :
    2 ≤ 3 ∧ pyWordsL "a b c".toList ≠ [] ∧
      ((pdfProcessorInit 2 3).chunk_size = 2 ∧ (pdfProcessorInit 2 3).overlap = 3 ∧
        1 ≤ ((pdfProcessorInit 2 3).chunk_text "a b c" none none).length) :=
  ⟨by decide, by decide,
    c9_degenerate_config_accepted 2 3 "a b c" (by decide) (by decide)⟩

/-! ## C7: empty-corpus guard of `process_query` -/

/-- C7: for every behavior of the embedding, similarity, and extractive-QA
capabilities (so none of them is consulted), a question passing validation
against an empty corpus yields the fixed no-documents answer with
confidence 0.0 and no retrieved chunks. -/
theorem c7_empty_corpus_fixed_answer (embedOne : String → Int) (cosSim : Int → Int → ℚ)
    (qaF : Bool → String → String → Except String QARes)
    (e : QAEngine) (question : String) (top_k : Nat)
    (hv : QAEngine.is_valid_question question = true)
    (he : e.text_chunks = []) :
    QAEngine.process_query embedOne cosSim qaF e question top_k
      = { question := question, answer := "No documents have been uploaded yet.",
          relevant_chunks := [], confidence := 0 } := by
  simp [QAEngine.process_query, hv, he]

/-- Witness for C7 with the spec's example question and a failing QA
capability (never reached). -/
theorem c7_empty_corpus_fixed_answer_witness :
    QAEngine.is_valid_question "What is the capital of France?" = true ∧
      qaEngineInit.text_chunks = [] ∧
      QAEngine.process_query (fun _ => 0) (fun _ _ => 0) (fun _ _ _ => Except.error "down")
          qaEngineInit "What is the capital of France?" 3
        = { question := "What is the capital of France?",
            answer := "No documents have been uploaded yet.",
            relevant_chunks := [], confidence := 0 } :=
  ⟨by decide, rfl,
    c7_empty_corpus_fixed_answer (fun _ => 0) (fun _ _ => 0) (fun _ _ _ => Except.error "down")
      qaEngineInit "What is the capital of France?" 3 (by decide) rfl⟩

/-! ## C8: short-context guard of `answer_question` -/

lemma length_dropWhile_le (p : Char → Bool) (l : List Char) :
    (l.dropWhile p).length ≤ l.length := by
  induction l with
  | nil => simp
  | cons c rest ih =>
    rw [List.dropWhile_cons]
    split
    · exact le_trans ih (Nat.le_succ _)
    · simp

lemma stripL_length_le (l : List Char) : (stripL l).length ≤ l.length := by
  unfold stripL
  calc (((l.dropWhile Char.isWhitespace).reverse.dropWhile Char.isWhitespace).reverse).length
      = ((l.dropWhile Char.isWhitespace).reverse.dropWhile Char.isWhitespace).length := by
        simp
    _ ≤ (l.dropWhile Char.isWhitespace).reverse.length := length_dropWhile_le _ _
    _ = (l.dropWhile Char.isWhitespace).length := by simp
    _ ≤ l.length := length_dropWhile_le _ _

/-- C8: for every question, every extractive-QA capability (never invoked),
and every context that is empty or shorter than 50 characters,
`answer_question` returns the fixed insufficient-context answer with score
0.0 and offsets 0/0. -/
theorem c8_insufficient_context (qaF : Bool → String → String → Except String QARes)
    (question context : String)
    (h : context = "" ∨ context.length < 50) :
    QAEngine.answer_question qaF question context
      = { answer := "Insufficient context to answer the question.",
          score := 0, start := 0, stop := 0 } := by
  have hguard : context = "" ∨ (pyStrip context).length < 50 := by
    rcases h with h | h
    · exact Or.inl h
    · refine Or.inr (lt_of_le_of_lt ?_ h)
      show (stripL context.toList).length ≤ context.length
      calc (stripL context.toList).length ≤ context.toList.length :=
            stripL_length_le context.toList
        _ = context.length := rfl
  simp [QAEngine.answer_question, QAEngine.answer_question_body, hguard, handleAnswerError,
    pure, Except.pure]

/-- Witness for C8 at a concrete short context. -/
theorem c8_insufficient_context_witness :
    (("too short" : String) = "" ∨ ("too short" : String).length < 50) ∧
      QAEngine.answer_question (fun _ _ _ => Except.error "down") "Why?" "too short"
        = { answer := "Insufficient context to answer the question.",
            score := 0, start := 0, stop := 0 } :=
  ⟨by decide,
    c8_insufficient_context (fun _ _ _ => Except.error "down") "Why?" "too short"
      (by decide)⟩

/-! ## C10: totality of `answer_question` over its error paths -/

lemma finish_answer_ok (ctx question : String)
    (att : Except String (String × ℚ × Nat × Nat)) :
    ∃ r, QAEngine.finish_answer ctx question att = Except.ok r := by
  cases att with
  | ok v =>
    obtain ⟨a, s, st, en⟩ := v
    exact ⟨_, rfl⟩
  | error msg => exact ⟨_, rfl⟩

lemma answer_question_body_ok (qaF : Bool → String → String → Except String QARes)
    (question context : String) :
    ∃ r, QAEngine.answer_question_body qaF question context = Except.ok r := by
  unfold QAEngine.answer_question_body
  split
  · exact ⟨_, rfl⟩
  · exact finish_answer_ok _ _ _

/-- C10: for every question, context, and behavior of the extractive-QA
capability (including failures on either pipeline call), the body of
`answer_question` completes without an escaping error — the inner handler
absorbs QA failures — so `answer_question` always returns a record with
the four `answer`/`score`/`start`/`end` fields; and the outer handler maps
any error signalled after the context guard to the fixed
unable-to-answer record with score 0.0 and offsets 0/0. -/
theorem c10_total_no_exception (qaF : Bool → String → String → Except String QARes)
    (question context : String) :
    (∃ r, QAEngine.answer_question_body qaF question context = Except.ok r ∧
        QAEngine.answer_question qaF question context = r) ∧
      (∀ msg, handleAnswerError (Except.error msg)
        = { answer := "Unable to generate answer from the provided context.",
            score := 0, start := 0, stop := 0 }) := by
  constructor
  · obtain ⟨r, hr⟩ := answer_question_body_ok qaF question context
    refine ⟨r, hr, ?_⟩
    unfold QAEngine.answer_question
    rw [hr]
    rfl
  · intro msg
    rfl

/-! ## C6: two-word overlap between consecutive chunks (chunkSize 5, overlap 2) -/

/-- The last two elements of a list (`lst[-2:]` for a list of length ≥ 2). -/
def lastTwo {α : Type} (l : List α) : List α :=
  l.drop (l.length - 2)

/-- A word as produced by `str.split()`: non-empty, no whitespace. -/
def goodWord (w : List Char) : Prop :=
  w ≠ [] ∧ ∀ c ∈ w, c.isWhitespace = false

lemma wordsAux_goodWord :
    ∀ (l acc : List Char), (∀ c ∈ acc, c.isWhitespace = false) →
      ∀ w ∈ wordsAux l acc, goodWord w := by
  intro l
  induction l with
  | nil =>
    intro acc hacc w hw
    by_cases ha : acc = []
    · simp [wordsAux, ha] at hw
    · simp only [wordsAux, if_neg ha, List.mem_singleton] at hw
      subst hw
      exact ⟨by simpa using ha, fun c hc => hacc c (List.mem_reverse.mp hc)⟩
  | cons c rest ih =>
    intro acc hacc w hw
    by_cases hc : c.isWhitespace
    · by_cases ha : acc = []
      · rw [wordsAux, if_pos hc, if_pos ha] at hw
        exact ih [] (by simp) w hw
      · rw [wordsAux, if_pos hc, if_neg ha] at hw
        rcases List.mem_cons.mp hw with hw | hw
        · subst hw
          exact ⟨by simpa using ha, fun x hx => hacc x (List.mem_reverse.mp hx)⟩
        · exact ih [] (by simp) w hw
    · rw [wordsAux, if_neg hc] at hw
      refine ih (c :: acc) ?_ w hw
      intro x hx
      rcases List.mem_cons.mp hx with hx | hx
      · subst hx
        exact Bool.not_eq_true _ ▸ eq_false_of_ne_true (by simpa using hc)
      · exact hacc x hx

lemma wordsAux_append_word (w : List Char) (hw : ∀ c ∈ w, c.isWhitespace = false) :
    ∀ (rest acc : List Char), wordsAux (w ++ rest) acc = wordsAux rest (w.reverse ++ acc) := by
  induction w with
  | nil => intro rest acc; simp
  | cons c w' ih =>
    intro rest acc
    have hc : c.isWhitespace = false := hw c (List.mem_cons_self c w')
    have hw' : ∀ x ∈ w', x.isWhitespace = false := fun x hx => hw x (List.mem_cons_of_mem c hx)
    rw [List.cons_append, wordsAux, if_neg (by simp [hc])]
    rw [ih hw' rest (c :: acc)]
    simp

lemma pyWordsL_joinWordsL :
    ∀ ws : List (List Char), (∀ w ∈ ws, goodWord w) → pyWordsL (joinWordsL ws) = ws := by
  intro ws
  induction ws with
  | nil => intro _; rfl
  | cons w ws ih =>
    intro hgood
    have hw := hgood w (List.mem_cons_self w ws)
    cases ws with
    | nil =>
      show wordsAux (joinWordsL [w]) [] = [w]
      have : joinWordsL [w] = w := rfl
      rw [this, ← List.append_nil w, wordsAux_append_word w hw.2 [] []]
      simp [wordsAux, hw.1]
    | cons w2 ws' =>
      show wordsAux (w ++ ' ' :: joinWordsL (w2 :: ws')) [] = w :: w2 :: ws'
      rw [wordsAux_append_word w hw.2 (' ' :: joinWordsL (w2 :: ws')) []]
      rw [wordsAux, if_pos (by decide), if_neg (by simpa using hw.1)]
      have h2 : wordsAux (joinWordsL (w2 :: ws')) [] = w2 :: ws' :=
        ih (fun x hx => hgood x (List.mem_cons_of_mem w hx))
      rw [h2]
      simp

lemma pySliceLast_subset {α : Type} (l : List α) (k : Nat) : pySliceLast l k ⊆ l := by
  unfold pySliceLast
  split
  · exact fun _ h => h
  · exact List.drop_subset _ _

lemma chunkAux_goodChunks {α : Type} (P : α → Prop) (cs ov : Nat) :
    ∀ (ws : List α) (chunks : List (List α)) (cur : List α),
      (∀ w ∈ ws, P w) → (∀ w ∈ cur, P w) → (∀ ch ∈ chunks, ∀ w ∈ ch, P w) →
      ∀ ch ∈ chunkAux cs ov ws chunks cur, ∀ w ∈ ch, P w := by
  intro ws
  induction ws with
  | nil =>
    intro chunks cur _ hcur hchunks ch hch
    simp only [chunkAux] at hch
    by_cases hc : cur.isEmpty
    · rw [if_pos hc] at hch
      exact hchunks ch hch
    · rw [if_neg hc] at hch
      rcases List.mem_append.mp hch with hch | hch
      · exact hchunks ch hch
      · rw [List.mem_singleton.mp hch]
        exact hcur
  | cons w ws ih =>
    intro chunks cur hws hcur hchunks ch hch
    have hw : P w := hws w (List.mem_cons_self w ws)
    have hws' : ∀ x ∈ ws, P x := fun x hx => hws x (List.mem_cons_of_mem w hx)
    have hcur' : ∀ x ∈ cur ++ [w], P x := by
      intro x hx
      rcases List.mem_append.mp hx with hx | hx
      · exact hcur x hx
      · rw [List.mem_singleton.mp hx]; exact hw
    simp only [chunkAux] at hch
    split at hch
    · refine ih (chunks ++ [cur ++ [w]]) (pySliceLast (cur ++ [w]) ov) hws'
        (fun x hx => hcur' x (pySliceLast_subset _ _ hx)) ?_ ch hch
      intro c hc x hx
      rcases List.mem_append.mp hc with hc | hc
      · exact hchunks c hc x hx
      · rw [List.mem_singleton.mp hc] at hx
        exact hcur' x hx
    · exact ih chunks (cur ++ [w]) hws' hcur' hchunks ch hch

lemma chunkAux_chain_five_two {α : Type} :
    ∀ (ws : List α) (chunks : List (List α)) (cur : List α),
      List.Chain' (fun a b : List α => b.take 2 = lastTwo a) chunks →
      (∀ lc, chunks.getLast? = some lc → cur.take 2 = lastTwo lc ∧ 2 ≤ cur.length) →
      List.Chain' (fun a b : List α => b.take 2 = lastTwo a) (chunkAux 5 2 ws chunks cur) := by
  intro ws
  induction ws with
  | nil =>
    intro chunks cur hchain hcur
    simp only [chunkAux]
    by_cases hc : cur.isEmpty
    · rw [if_pos hc]; exact hchain
    · rw [if_neg hc]
      rw [List.chain'_append]
      refine ⟨hchain, List.chain'_singleton cur, ?_⟩
      intro x hx y hy
      rw [List.head?_cons, Option.mem_some_iff] at hy
      subst hy
      exact (hcur x (Option.mem_def.mp hx)).1
  | cons w ws ih =>
    intro chunks cur hchain hcur
    simp only [chunkAux]
    split
    · rename_i hlen
      refine ih (chunks ++ [cur ++ [w]]) (pySliceLast (cur ++ [w]) 2) ?_ ?_
      · rw [List.chain'_append]
        refine ⟨hchain, List.chain'_singleton _, ?_⟩
        intro x hx y hy
        rw [List.head?_cons, Option.mem_some_iff] at hy
        subst hy
        obtain ⟨htake, hlen2⟩ := hcur x (Option.mem_def.mp hx)
        rw [List.take_append_of_le_length hlen2]
        exact htake
      · intro lc hlc
        rw [List.getLast?_append, List.getLast?_singleton] at hlc
        simp only [Option.or, Option.some_inj] at hlc
        subst hlc
        have hsl : pySliceLast (cur ++ [w]) 2 = lastTwo (cur ++ [w]) := by
          unfold pySliceLast lastTwo
          rw [if_neg (by decide)]
        have hlen' : (pySliceLast (cur ++ [w]) 2).length = 2 := by
          rw [hsl]
          unfold lastTwo
          rw [List.length_drop]
          omega
        constructor
        · rw [List.take_of_length_le (le_of_eq hlen'), hsl]
        · rw [hlen']
    · refine ih chunks (cur ++ [w]) hchain ?_
      intro lc hlc
      obtain ⟨htake, hlen2⟩ := hcur lc hlc
      constructor
      · rw [List.take_append_of_le_length hlen2]
        exact htake
      · calc 2 ≤ cur.length := hlen2
          _ ≤ (cur ++ [w]).length := by simp

lemma chain'_rel_congr {α : Type} (R : α → α → Prop) (g : α → α) :
    ∀ l : List α, List.Chain' R l → (∀ a ∈ l, g a = a) →
      List.Chain' (fun a b => R (g a) (g b)) l := by
  intro l
  induction l with
  | nil => intro _ _; simp
  | cons a l ih =>
    intro hc hg
    cases l with
    | nil => simp
    | cons b l' =>
      rw [List.chain'_cons] at hc ⊢
      constructor
      · rw [hg a (List.mem_cons_self a _), hg b (List.mem_cons_of_mem a (List.mem_cons_self b _))]
        exact hc.1
      · exact ih hc.2 (fun x hx => hg x (List.mem_cons_of_mem a hx))

/-- C6: chunking any text with `chunkSize = 5`, `overlap = 2`, every pair
of consecutive returned chunks overlaps by exactly 2 words — the first two
words of chunk `i+1` are the last two words of chunk `i` (this holds for
every consecutive pair, in particular up to and including the final,
possibly shorter, chunk). -/
theorem c6_consecutive_chunk_overlap (text : String) :
    List.Chain'
      (fun a b : String => (pyWordsL b.toList).take 2 = lastTwo (pyWordsL a.toList))
      ((pdfProcessorInit 5 2).chunk_text text none none) := by
  have hgoodW : ∀ w ∈ pyWordsL text.toList, goodWord w :=
    wordsAux_goodWord text.toList [] (by simp)
  have hgoodC : ∀ ch ∈ chunkWordsCore 5 2 (pyWordsL text.toList), ∀ w ∈ ch, goodWord w :=
    chunkAux_goodChunks goodWord 5 2 (pyWordsL text.toList) [] [] hgoodW
      (by simp) (by simp)
  have hchain : List.Chain' (fun a b : List (List Char) => b.take 2 = lastTwo a)
      (chunkWordsCore 5 2 (pyWordsL text.toList)) :=
    chunkAux_chain_five_two (pyWordsL text.toList) [] [] (by simp) (by simp)
  show List.Chain' _
      ((chunkWordsCore 5 2 (pyWordsL text.toList)).map
        (fun c => ((⟨joinWordsL c⟩ : String))))
  rw [List.chain'_map]
  exact chain'_rel_congr (fun a b : List (List Char) => b.take 2 = lastTwo a)
    (fun c => pyWordsL (joinWordsL c)) (chunkWordsCore 5 2 (pyWordsL text.toList))
    hchain (fun c hc => pyWordsL_joinWordsL c (hgoodC c hc))

example :
    ((pdfProcessorInit 5 2).chunk_text "w1 w2 w3 w4 w5 w6" none none
        = ["w1 w2 w3 w4 w5", "w4 w5 w6"]) ∧
      (pyWordsL "w4 w5 w6".toList).take 2 = lastTwo (pyWordsL "w1 w2 w3 w4 w5".toList) := by
  decide
